import Mathlib

/-!
Verification of the symbolic-execution engine core (worklist scheduler,
symbolic value model and casts, primitive/intrinsic evaluator, constraint
store contract) against its specification.  The definitions below are a
shallow embedding of the engine's source: `cast.rs`, `terminator/intrinsic.rs`
and `executor.rs`.  Collaborators whose source is not part of the core
(the constraint store internals, the memory subsystem, the interpreter step)
are modelled from the specification and marked as such in their doc comments.
-/

set_option linter.unusedVariables false

namespace Seer

/-- A single byte cell of a partially symbolic value: either a concrete byte
or a symbolic placeholder identified by an index into the unknown input. -/
inductive SByte
  | Concrete (b : Nat)
  | Abstract (id : Nat)
deriving DecidableEq

/-- The fixed sixteen-cell byte array carried by a partially symbolic
machine word (`PrimVal::Abstract([SByte; 16])`). -/
def SBytes : Type := Fin 16 → SByte

instance : DecidableEq SBytes := by
  unfold SBytes
  infer_instance

/-- Reads cell `i` of the fixed array, defaulting out-of-range reads to a
concrete zero byte. -/
def SBytes.get (s : SBytes) (i : Nat) : SByte :=
  if h : i < 16 then s ⟨i, h⟩ else SByte.Concrete 0

/-- A memory-region identity paired with a byte offset. -/
structure MemoryPointer where
  alloc_id : Nat
  offset : Nat
deriving DecidableEq

/-- The primitive value kinds of the engine (`value.rs`, external to the core
files; the kind catalogue is modelled from the spec, §3). -/
inductive PrimValKind
  | I8 | I16 | I32 | I64 | I128
  | U8 | U16 | U32 | U64 | U128
  | F32 | F64
  | Bool | Char | FnPtr | Ptr
deriving DecidableEq

/-- Modelled from the spec: the byte width implied by a primitive kind
(§3 invariant on Abstract cell counts); the platform is 64-bit. -/
def PrimValKind.num_bytes : PrimValKind → Nat
  | .I8 => 1 | .U8 => 1 | .Bool => 1
  | .I16 => 2 | .U16 => 2
  | .I32 => 4 | .U32 => 4 | .F32 => 4 | .Char => 4
  | .I64 => 8 | .U64 => 8 | .F64 => 8 | .FnPtr => 8 | .Ptr => 8
  | .I128 => 16 | .U128 => 16

/-- Modelled from the spec: whether a kind is one of the integer kinds
(character and boolean kinds are not integers). -/
def PrimValKind.is_int (k : PrimValKind) :=
  match k with
  | .I8 | .I16 | .I32 | .I64 | .I128 => true
  | .U8 | .U16 | .U32 | .U64 | .U128 => true
  | _ => false

/-- Modelled from the spec: whether an integer kind is signed. -/
def PrimValKind.is_signed (k : PrimValKind) :=
  match k with
  | .I8 | .I16 | .I32 | .I64 | .I128 => true
  | _ => false

/-- Integer type widths of the IR's signed integer types. -/
inductive IntTy
  | I8 | I16 | I32 | I64 | I128 | Isize
deriving DecidableEq

/-- Integer type widths of the IR's unsigned integer types. -/
inductive UintTy
  | U8 | U16 | U32 | U64 | U128 | Usize
deriving DecidableEq

/-- Floating point type widths. -/
inductive FloatTy
  | F32 | F64
deriving DecidableEq

/-- The IR type variants relevant to the casting code. -/
inductive Ty
  | TyInt (t : IntTy)
  | TyUint (t : UintTy)
  | TyFloat (t : FloatTy)
  | TyBool
  | TyChar
  | TyRawPtr
  | TyRef
deriving DecidableEq

/-- Display name of a type, used in error messages. -/
def Ty.descr : Ty → String
  | .TyInt .I8 => "i8" | .TyInt .I16 => "i16" | .TyInt .I32 => "i32"
  | .TyInt .I64 => "i64" | .TyInt .I128 => "i128" | .TyInt .Isize => "isize"
  | .TyUint .U8 => "u8" | .TyUint .U16 => "u16" | .TyUint .U32 => "u32"
  | .TyUint .U64 => "u64" | .TyUint .U128 => "u128" | .TyUint .Usize => "usize"
  | .TyFloat .F32 => "f32" | .TyFloat .F64 => "f64"
  | .TyBool => "bool"
  | .TyChar => "char"
  | .TyRawPtr => "*const _"
  | .TyRef => "&_"

/-- Modelled from the spec: mapping from an IR type to its primitive value
kind (`EvalContext::ty_to_primval_kind`, external to the core files); the
platform's native width is 64 bits. -/
def ty_to_primval_kind : Ty → PrimValKind
  | .TyInt .I8 => .I8 | .TyInt .I16 => .I16 | .TyInt .I32 => .I32
  | .TyInt .I64 => .I64 | .TyInt .I128 => .I128 | .TyInt .Isize => .I64
  | .TyUint .U8 => .U8 | .TyUint .U16 => .U16 | .TyUint .U32 => .U32
  | .TyUint .U64 => .U64 | .TyUint .U128 => .U128 | .TyUint .Usize => .U64
  | .TyFloat .F32 => .F32 | .TyFloat .F64 => .F64
  | .TyBool => .Bool
  | .TyChar => .Char
  | .TyRawPtr => .Ptr
  | .TyRef => .Ptr

/-- A machine word: concrete bit pattern, pointer, undefined, or a
partially symbolic byte array. -/
inductive PrimVal
  | Bytes (n : Nat)
  | Abstract (sbytes : SBytes)
  | Undef
  | Ptr (p : MemoryPointer)
deriving DecidableEq

/-- The error kinds raised by the evaluator core.  The two `Panic` variants
stand for `unimplemented!()` and `bug!` aborts in the source, which are not
`EvalError`s but terminate the process. -/
inductive EvalError
  | Unimplemented (msg : String)
  | Intrinsic (msg : String)
  | ReadPointerAsBytes
  | InvalidChar (c : Nat)
  | AssumptionNotHeld
  | PanicUnimplemented
  | PanicBug
deriving DecidableEq

/-- Binary operators routed through the evaluator and the constraint store. -/
inductive BinOp
  | Add | Sub | Mul | Div | Rem
  | BitOr | BitXor | BitAnd
  | Eq | Ne | Lt | Le
deriving DecidableEq

/-- The named unary relations of the constraint store contract (§4.4). -/
inductive NumericIntrinsic
  | Ctpop | Ctlz | Cttz
deriving DecidableEq

/-- Modelled from the spec: the opaque relations recorded by the constraint
store (§3): path conditions, binary-operation relations, ternary selects and
named unary intrinsic relations. -/
inductive Constraint
  | path (cond : PrimVal)
  | binop (op : BinOp) (lhs rhs : PrimVal) (kind : PrimValKind) (result : PrimVal)
  | select (cond thenVal elseVal : PrimVal) (kind : PrimValKind) (result : PrimVal)
  | unaryIntrinsic (op : NumericIntrinsic) (operand : PrimVal) (kind : PrimValKind)
      (result : PrimVal)
deriving DecidableEq

/-- Modelled from the spec: the constraint store state (`constraints.rs`,
external to the core files): an append-only constraint sequence plus a
counter for allocating fresh symbolic placeholders. -/
structure ConstraintContext where
  constraints : List Constraint
  next_id : Nat
deriving DecidableEq

/-- A fresh derived symbolic value of the given byte width whose cells are
new placeholders starting at `base`. -/
def fresh_abstract (base nb : Nat) : PrimVal :=
  PrimVal.Abstract (fun i => if i.val < nb then SByte.Abstract (base + i.val) else SByte.Concrete 0)

/-- Modelled from the spec: `addSelectConstraint` (§4.4) records a ternary
selection and returns a fresh derived value. -/
def ConstraintContext.add_if_then_else (ctx : ConstraintContext) (cond : PrimVal)
    (kind : PrimValKind) (then_val else_val : PrimVal) : PrimVal × ConstraintContext :=
  let result := fresh_abstract ctx.next_id kind.num_bytes
  (result,
   { constraints := ctx.constraints ++ [Constraint.select cond then_val else_val kind result],
     next_id := ctx.next_id + kind.num_bytes })

/-- Modelled from the spec: `addBinaryConstraint` (§4.4) records a
binary-operation relation and returns a fresh derived value. -/
def ConstraintContext.add_binop_constraint (ctx : ConstraintContext) (op : BinOp)
    (lhs rhs : PrimVal) (kind : PrimValKind) : PrimVal × ConstraintContext :=
  let result := fresh_abstract ctx.next_id kind.num_bytes
  (result,
   { constraints := ctx.constraints ++ [Constraint.binop op lhs rhs kind result],
     next_id := ctx.next_id + kind.num_bytes })

/-- Modelled from the spec: `addUnaryIntrinsicConstraint` (§4.4) records a
named unary relation and returns a fresh derived value. -/
def ConstraintContext.add_intrinsic_constraint (ctx : ConstraintContext)
    (op : NumericIntrinsic) (operand : PrimVal) (kind : PrimValKind) :
    PrimVal × ConstraintContext :=
  let result := fresh_abstract ctx.next_id kind.num_bytes
  (result,
   { constraints := ctx.constraints ++ [Constraint.unaryIntrinsic op operand kind result],
     next_id := ctx.next_id + kind.num_bytes })

/-- Modelled from the spec: `pushPathConstraint` (§4.4) appends a feasibility
condition; append-only, never retracted. -/
def ConstraintContext.push_constraint (ctx : ConstraintContext) (c : Constraint) :
    ConstraintContext :=
  { ctx with constraints := ctx.constraints ++ [c] }

/-- Modelled from the spec: `getSatisfyingAssignment` (§4.4) returns one
concrete byte sequence of the requested length for the root symbolic input;
the internal solving algorithm is out of scope of the core, so the returned
assignment is left as the all-zero sequence of the correct length. -/
def ConstraintContext.get_satisfying_values (ctx : ConstraintContext) (n : Nat) : List Nat :=
  List.replicate n 0

/-- Value of one byte cell under an assignment of concrete bytes to the
symbolic placeholders. -/
def evalSByte (rho : Nat → Nat) : SByte → Nat
  | .Concrete b => b
  | .Abstract id => rho id

/-- Little-endian numeric value of the first `nb` cells of a symbolic byte
array under a placeholder assignment. -/
def evalAbstract (rho : Nat → Nat) (nb : Nat) (s : SBytes) : Nat :=
  ((List.range nb).map (fun i => 256 ^ i * evalSByte rho (SBytes.get s i))).sum

/-- Modelled from the spec: the numeric value a primitive value materializes
to under a placeholder assignment (pointers and undefined values have none). -/
def evalPrim (rho : Nat → Nat) (kind : PrimValKind) : PrimVal → Option Nat
  | .Bytes n => some n
  | .Abstract s => some (evalAbstract rho kind.num_bytes s)
  | .Undef => none
  | .Ptr _ => none

/-- Modelled from the spec: the boolean a one-byte value materializes to
(`0` is false, `1` is true, anything else is ill-formed). -/
def evalPrimBool (rho : Nat → Nat) : PrimVal → Option Bool
  | .Bytes 0 => some false
  | .Bytes 1 => some true
  | .Bytes _ => none
  | .Abstract s => some (evalSByte rho (SBytes.get s 0) == 1)
  | .Undef => none
  | .Ptr _ => none

/-- Count of set bits among the low `w` bits of `n`. -/
def ctpop_bits (w n : Nat) : Nat :=
  ((List.range w).filter (fun i => n / 2 ^ i % 2 == 1)).length

/-- Count of leading zero bits of `n` viewed as a `w`-bit value. -/
def ctlz_bits (w n : Nat) : Nat :=
  ((List.range w).takeWhile (fun i => (n % 2 ^ w) / 2 ^ (w - 1 - i) % 2 == 0)).length

/-- Count of trailing zero bits of `n` viewed as a `w`-bit value
(`w` itself when all `w` bits are zero). -/
def cttz_bits (w n : Nat) : Nat :=
  ((List.range w).takeWhile (fun i => (n % 2 ^ w) / 2 ^ i % 2 == 0)).length

/-- Modelled from the spec: the exact meaning of the named unary relations
recorded in the constraint store (§4.4). -/
def evalUnaryNat (op : NumericIntrinsic) (x : Nat) (kind : PrimValKind) : Nat :=
  match op with
  | .Ctpop => ctpop_bits (8 * kind.num_bytes) x
  | .Ctlz => ctlz_bits (8 * kind.num_bytes) x
  | .Cttz => cttz_bits (8 * kind.num_bytes) x

/-- Modelled from the spec: the exact meaning of the binary-operation
relations recorded in the constraint store, with wrap-around at the kind's
bit width (§4.3, §4.4). -/
def evalBinOpNat (op : BinOp) (x y : Nat) (kind : PrimValKind) : Nat :=
  let m := 2 ^ (8 * kind.num_bytes)
  match op with
  | .Add => (x + y) % m
  | .Sub => (x % m + (m - y % m)) % m
  | .Mul => (x * y) % m
  | .Div => (x / y) % m
  | .Rem => (x % y) % m
  | .BitOr => (Nat.lor x y) % m
  | .BitXor => (Nat.xor x y) % m
  | .BitAnd => (Nat.land x y) % m
  | .Eq => if x % m = y % m then 1 else 0
  | .Ne => if x % m = y % m then 0 else 1
  | .Lt => if x % m < y % m then 1 else 0
  | .Le => if x % m ≤ y % m then 1 else 0

/-- Modelled from the spec: whether one recorded relation holds under a
placeholder assignment. -/
def constraint_holds (rho : Nat → Nat) : Constraint → Bool
  | .path cond => evalPrimBool rho cond == some true
  | .select cond thenVal elseVal kind result =>
      match evalPrimBool rho cond with
      | some true => evalPrim rho kind result == evalPrim rho kind thenVal
      | some false => evalPrim rho kind result == evalPrim rho kind elseVal
      | none => true
  | .binop op lhs rhs kind result =>
      match evalPrim rho kind lhs, evalPrim rho kind rhs with
      | some x, some y => evalPrim rho kind result == some (evalBinOpNat op x y kind)
      | _, _ => true
  | .unaryIntrinsic op operand kind result =>
      match evalPrim rho kind operand with
      | some x => evalPrim rho kind result == some (evalUnaryNat op x kind)
      | none => true

/-- Modelled from the spec: an assignment satisfies a constraint store when
every recorded relation holds under it. -/
def satisfies (rho : Nat → Nat) (ctx : ConstraintContext) : Bool :=
  ctx.constraints.all (constraint_holds rho)

/-- Sign-extension of a `w`-bit pattern `p` to the 128-bit representation
used for concrete values (`as u128` applied to a signed `w`-bit integer). -/
def sext128Bits (w p : Nat) : Nat :=
  if p < 2 ^ (w - 1) then p else p + (2 ^ 128 - 2 ^ w)

/-- Reinterpretation of a 128-bit pattern as a signed integer
(`PrimVal::to_i128`). -/
def toI128 (n : Nat) : Int :=
  if n < 2 ^ 127 then (n : Int) else (n : Int) - 2 ^ 128

/-- Reinterpretation of a signed integer as its 128-bit pattern (`as u128`). -/
def u128_of_int (v : Int) : Nat :=
  (v.emod (2 ^ 128)).toNat

/-- Concrete signed integer conversion `v as iN as u128`
(`EvalContext::int_to_int`); the platform's `isize` is 64 bits wide. -/
def int_to_int (v : Int) : IntTy → Nat
  | .I8 => sext128Bits 8 ((v.emod (2 ^ 8)).toNat)
  | .I16 => sext128Bits 16 ((v.emod (2 ^ 16)).toNat)
  | .I32 => sext128Bits 32 ((v.emod (2 ^ 32)).toNat)
  | .I64 => sext128Bits 64 ((v.emod (2 ^ 64)).toNat)
  | .I128 => u128_of_int v
  | .Isize => sext128Bits 64 ((v.emod (2 ^ 64)).toNat)

/-- Concrete unsigned integer conversion `v as uN as u128`
(`EvalContext::int_to_uint`); the platform's `usize` is 64 bits wide. -/
def int_to_uint (v : Nat) : UintTy → Nat
  | .U8 => v % 2 ^ 8
  | .U16 => v % 2 ^ 16
  | .U32 => v % 2 ^ 32
  | .U64 => v % 2 ^ 64
  | .U128 => v
  | .Usize => v % 2 ^ 64

/-- Modelled from the spec: the exact IEEE-754 integer-to-float conversion is
delegated to an external floating point library (§4.2); its bit-level output
is abstracted as a parameter of the cast evaluator. -/
structure FloatOps where
  single_of_i128 : Int → Nat
  single_of_u128 : Nat → Nat
  double_of_i128 : Int → Nat
  double_of_u128 : Nat → Nat

/-- Concrete integer cast dispatch (`EvalContext::cast_from_int`). -/
def cast_from_int (fops : FloatOps) (v : Nat) (ty : Ty) (negative : Bool) :
    Except EvalError PrimVal :=
  match ty with
  | .TyInt t => .ok (.Bytes (int_to_int (toI128 v) t))
  | .TyUint t => .ok (.Bytes (int_to_uint v t))
  | .TyFloat .F32 =>
      .ok (.Bytes (if negative then fops.single_of_i128 (toI128 v) else fops.single_of_u128 v))
  | .TyFloat .F64 =>
      .ok (.Bytes (if negative then fops.double_of_i128 (toI128 v) else fops.double_of_u128 v))
  | .TyChar => if v % 2 ^ 8 = v then .ok (.Bytes v) else .error (.InvalidChar v)
  | .TyRawPtr => .ok (.Bytes (v % 2 ^ 64))
  | _ => .error (.Unimplemented ("int to " ++ ty.descr ++ " cast"))

/-- Signed entry point into the concrete integer cast
(`EvalContext::cast_from_signed_int`). -/
def cast_from_signed_int (fops : FloatOps) (v : Int) (ty : Ty) : Except EvalError PrimVal :=
  cast_from_int fops (u128_of_int v) ty (decide (v < 0))

/-- Cast of a pointer value (`EvalContext::cast_from_ptr`): raw pointers and
the native-width integer types preserve the pointer; other integer widths
fail with `ReadPointerAsBytes`; everything else is an unimplemented cast. -/
def cast_from_ptr (ptr : MemoryPointer) (ty : Ty) : Except EvalError PrimVal :=
  match ty with
  | .TyRawPtr | .TyInt .Isize | .TyUint .Usize => .ok (.Ptr ptr)
  | .TyInt _ | .TyUint _ => .error .ReadPointerAsBytes
  | _ => .error (.Unimplemented ("ptr to " ++ ty.descr ++ " cast"))

/-- Cast of a primitive value between two IR types
(`EvalContext::cast_primval`). -/
def cast_primval (fops : FloatOps) (ctx : ConstraintContext) (val : PrimVal)
    (src_ty dest_ty : Ty) : Except EvalError (PrimVal × ConstraintContext) :=
  let src_kind := ty_to_primval_kind src_ty
  match val with
  | .Abstract sbytes =>
      let dest_kind := ty_to_primval_kind dest_ty
      if (src_kind.is_int || src_kind == .Char) && (dest_kind.is_int || dest_kind == .Char) then
        let src_size := src_kind.num_bytes
        let dest_size := dest_kind.num_bytes
        let sbytes1 : SBytes := fun i =>
          if dest_size ≤ i.val ∧ i.val < src_size then SByte.Concrete 0 else sbytes i
        .ok (.Abstract sbytes1, ctx)
      else if src_kind == .Bool && dest_kind.is_int then
        let r := ctx.add_if_then_else val dest_kind (.Bytes 1) (.Bytes 0)
        .ok (r.1, r.2)
      else .error .PanicUnimplemented
  | .Undef => .ok (.Undef, ctx)
  | .Ptr ptr => (cast_from_ptr ptr dest_ty).map (fun v => (v, ctx))
  | .Bytes n =>
      match src_kind with
      | .F32 => .error .PanicUnimplemented
      | .F64 => .error .PanicUnimplemented
      | .I8 | .I16 | .I32 | .I64 | .I128 =>
          (cast_from_signed_int fops (toI128 n) dest_ty).map (fun v => (v, ctx))
      | .Bool | .Char | .U8 | .U16 | .U32 | .U64 | .U128 | .FnPtr | .Ptr =>
          (cast_from_int fops n dest_ty false).map (fun v => (v, ctx))

/-- The `k` low-order bytes of `n`, least significant first. -/
def toBytes : Nat → Nat → List Nat
  | 0, _ => []
  | k + 1, n => n % 256 :: toBytes k (n / 256)

/-- The number denoted by a little-endian list of bytes. -/
def fromBytes : List Nat → Nat
  | [] => 0
  | b :: bs => b + 256 * fromBytes bs

/-- Byte swap of a `k`-byte unsigned value (`uN::swap_bytes` after
truncating to `k` bytes). -/
def uswap (k n : Nat) : Nat :=
  fromBytes ((toBytes k n).reverse)

/-- Byte swap of a `k`-byte signed value followed by the `as u128`
reinterpretation, which sign-extends the swapped pattern
(`(bytes as iN).swap_bytes() as u128`). -/
def iswap (k n : Nat) : Nat :=
  sext128Bits (8 * k) (uswap k n)

/-- Reversal of the first `nb` cells of a symbolic byte array; the cells
beyond `nb` are untouched.  This is the pointwise effect of the source's
swap loop over `idx in 0..(num_bytes / 2)`. -/
def bswap_abstract (nb : Nat) (s : SBytes) : SBytes :=
  fun i => if i.val < nb then SBytes.get s (nb - 1 - i.val) else s i

/-- Evaluation of one numeric intrinsic on a primitive operand
(`EvalContext::numeric_intrinsic`): concrete operands compute directly per
declared bit width, a symbolic byte-swap permutes cells, and symbolic counts
are recorded as named unary relations in the constraint store. -/
def numeric_intrinsic (ctx : ConstraintContext) (name : String) (val : PrimVal)
    (kind : PrimValKind) : Except EvalError (PrimVal × ConstraintContext) :=
  match val with
  | .Bytes bytes =>
      match name with
      | "bswap" =>
          match kind with
          | .I8 => .ok (.Bytes (iswap 1 bytes), ctx)
          | .U8 => .ok (.Bytes (uswap 1 bytes), ctx)
          | .I16 => .ok (.Bytes (iswap 2 bytes), ctx)
          | .U16 => .ok (.Bytes (uswap 2 bytes), ctx)
          | .I32 => .ok (.Bytes (iswap 4 bytes), ctx)
          | .U32 => .ok (.Bytes (uswap 4 bytes), ctx)
          | .I64 => .ok (.Bytes (iswap 8 bytes), ctx)
          | .U64 => .ok (.Bytes (uswap 8 bytes), ctx)
          | .I128 => .ok (.Bytes (iswap 16 bytes), ctx)
          | .U128 => .ok (.Bytes (uswap 16 bytes), ctx)
          | _ => .error .PanicBug
      | "ctlz" =>
          match kind with
          | .I8 | .U8 => .ok (.Bytes (ctlz_bits 8 bytes), ctx)
          | .I16 | .U16 => .ok (.Bytes (ctlz_bits 16 bytes), ctx)
          | .I32 | .U32 => .ok (.Bytes (ctlz_bits 32 bytes), ctx)
          | .I64 | .U64 => .ok (.Bytes (ctlz_bits 64 bytes), ctx)
          | .I128 | .U128 => .ok (.Bytes (ctlz_bits 128 bytes), ctx)
          | _ => .error .PanicBug
      | "ctpop" =>
          match kind with
          | .I8 | .U8 => .ok (.Bytes (ctpop_bits 8 bytes), ctx)
          | .I16 | .U16 => .ok (.Bytes (ctpop_bits 16 bytes), ctx)
          | .I32 | .U32 => .ok (.Bytes (ctpop_bits 32 bytes), ctx)
          | .I64 | .U64 => .ok (.Bytes (ctpop_bits 64 bytes), ctx)
          | .I128 | .U128 => .ok (.Bytes (ctpop_bits 128 bytes), ctx)
          | _ => .error .PanicBug
      | "cttz" =>
          match kind with
          | .I8 | .U8 => .ok (.Bytes (cttz_bits 8 bytes), ctx)
          | .I16 | .U16 => .ok (.Bytes (cttz_bits 16 bytes), ctx)
          | .I32 | .U32 => .ok (.Bytes (cttz_bits 32 bytes), ctx)
          | .I64 | .U64 => .ok (.Bytes (cttz_bits 64 bytes), ctx)
          | .I128 | .U128 => .ok (.Bytes (cttz_bits 128 bytes), ctx)
          | _ => .error .PanicBug
      | _ => .error .PanicBug
  | .Abstract sbytes =>
      match name with
      | "bswap" =>
          let num_bytes := kind.num_bytes
          .ok (.Abstract (bswap_abstract num_bytes sbytes), ctx)
      | "ctlz" => .ok (ctx.add_intrinsic_constraint .Ctlz val kind)
      | "ctpop" => .ok (ctx.add_intrinsic_constraint .Ctpop val kind)
      | "cttz" => .ok (ctx.add_intrinsic_constraint .Cttz val kind)
      | _ => .error .PanicUnimplemented
  | _ => .error .PanicUnimplemented

/-- A value as stored in a local: a primitive, a pair, or a reference. -/
inductive Value
  | ByVal (v : PrimVal)
  | ByValPair (a b : PrimVal)
  | ByRef (p : MemoryPointer)
deriving DecidableEq

/-- The local variable store of one execution state. -/
def Locals : Type := Nat → Option (Value × Ty)

/-- Modelled from the spec: writing a primitive value to a local
(`EvalContext::write_primval`'s effect on the destination). -/
def write_local (locals : Locals) (dest : Nat) (p : PrimVal) (ty : Ty) : Locals :=
  fun n => if n = dest then some (Value.ByVal p, ty) else locals n

/-- Whether an intrinsic name carries the `_nonzero` suffix
(`str::ends_with("_nonzero")`). -/
def ends_with_nonzero (s : String) : Bool :=
  List.isSuffixOf "_nonzero".data s.data

/-- Removal of the `_nonzero` suffix (`str::trim_right_matches("_nonzero")`
on the single-suffix names dispatched here). -/
def trim_nonzero (s : String) : String :=
  if ends_with_nonzero s then String.mk (s.data.take (s.data.length - 8)) else s

/-- The numeric part of the `"ctpop" | "cttz" | "cttz_nonzero" | "ctlz" |
"ctlz_nonzero" | "bswap"` arm of `EvalContext::call_intrinsic`: a `_nonzero`
variant on a concrete zero fails with an intrinsic-misuse error before any
evaluation; otherwise the trimmed name is evaluated. -/
def count_intrinsic_arm (ctx : ConstraintContext) (intrinsic_name : String)
    (primval : PrimVal) (kind : PrimValKind) : Except EvalError (PrimVal × ConstraintContext) :=
  if ends_with_nonzero intrinsic_name then
    match primval with
    | .Bytes 0 => .error (.Intrinsic (intrinsic_name ++ " called on 0"))
    | _ => numeric_intrinsic ctx (trim_nonzero intrinsic_name) primval kind
  else
    numeric_intrinsic ctx intrinsic_name primval kind

/-- The full count/byte-swap intrinsic call: evaluate the arm, then write the
result to the destination local; on error the destination is never written. -/
def call_count_intrinsic (locals : Locals) (ctx : ConstraintContext)
    (intrinsic_name : String) (primval : PrimVal) (kind : PrimValKind)
    (dest : Nat) (ty : Ty) : Except EvalError (Locals × ConstraintContext) :=
  match count_intrinsic_arm ctx intrinsic_name primval kind with
  | .error e => .error e
  | .ok (num, ctx1) => .ok (write_local locals dest num ty, ctx1)

/-- Modelled from the spec: the binary-operation evaluator computes exactly
on concrete operands and routes symbolic operands through the constraint
store's binary-operation builder, returning a derived value and an overflow
flag (§4.3); only the equality case, the one used by compare-exchange, is
given concretely. -/
def binary_op (ctx : ConstraintContext) (op : BinOp) (left : PrimVal) (left_ty : Ty)
    (right : PrimVal) (right_ty : Ty) : Except EvalError ((PrimVal × Bool) × ConstraintContext) :=
  let result_kind : PrimValKind :=
    match op with
    | .Eq | .Ne | .Lt | .Le => .Bool
    | _ => ty_to_primval_kind left_ty
  match left, right with
  | .Bytes a, .Bytes b =>
      match op with
      | .Eq => .ok ((.Bytes (if a == b then 1 else 0), false), ctx)
      | _ => .error .PanicUnimplemented
  | .Abstract _, _ =>
      let r := ctx.add_binop_constraint op left right result_kind
      .ok ((r.1, false), r.2)
  | _, .Abstract _ =>
      let r := ctx.add_binop_constraint op left right result_kind
      .ok ((r.1, false), r.2)
  | _, _ => .error .PanicUnimplemented

/-- Modelled from the spec: primitive-value-granular memory, enough to state
the compare-exchange contract (§4.3 atomics; the byte-level memory subsystem
is an external collaborator). -/
def Heap : Type := Nat → PrimVal

/-- The `atomic_cxchg` arm of `EvalContext::call_intrinsic`: read the old
value, compare it to the expected value through the binary-operation
evaluator, write the pair `(old, old == expected)` to the destination, and
overwrite the target memory with the replacement value unconditionally. -/
def atomic_cxchg (heap : Heap) (ctx : ConstraintContext) (ptr : Nat)
    (expect_old change : PrimVal) (ty : Ty) :
    Except EvalError (Heap × (PrimVal × PrimVal) × ConstraintContext) :=
  let old := heap ptr
  match binary_op ctx .Eq old ty expect_old ty with
  | .error e => .error e
  | .ok (r, ctx1) =>
      .ok (fun n => if n = ptr then change else heap n, (old, r.1), ctx1)

/-- Modelled from the spec: the configuration consumed at construction —
resource limits (maximum step count, maximum memory, maximum stack depth)
and, for target-function mode, the symbolic input buffer's fixed byte
length (§6). -/
structure ResourceLimits where
  step_limit : Nat
  memory_size : Nat
  stack_limit : Nat
  symbolic_input_length : Nat
deriving DecidableEq

/-- Modelled from the spec: the per-state memory of the engine, reduced to
what the scheduler observes — the set of live allocations with their sizes,
the constraint store, and the root symbolic allocation (§6 memory
collaborator). -/
structure Memory where
  allocs : List (Nat × Nat)
  next_alloc_id : Nat
  constraints : ConstraintContext
  root_abstract_alloc : Option Nat

/-- Modelled from the spec: allocation of a fully symbolic buffer of the
given size and alignment (`Memory::allocate_abstract`). -/
def Memory.allocate_abstract (m : Memory) (size align : Nat) : Nat × Memory :=
  (m.next_alloc_id,
   { m with
     allocs := m.allocs ++ [(m.next_alloc_id, size)],
     next_alloc_id := m.next_alloc_id + 1 })

/-- Modelled from the spec: deallocation removes the allocation from the
live set (`Memory::deallocate`). -/
def Memory.deallocate (m : Memory) (id : Nat) : Memory :=
  { m with allocs := m.allocs.filter (fun a => a.1 != id) }

/-- Modelled from the spec: the leak report counts the allocations still
live at path completion (`Memory::leak_report`). -/
def Memory.leak_report (m : Memory) : Nat :=
  m.allocs.length

/-- One candidate execution state, reduced to the parts the scheduler and
the claims observe: the current control point, the stack depth, the locals,
the memory (with its constraint store), and the construction-time limits. -/
structure EvalContext where
  block : Nat
  stack_depth : Nat
  locals : Locals
  memory : Memory
  limits : ResourceLimits

/-- Construction of a fresh execution state (`EvalContext::new`). -/
def EvalContext.new (limits : ResourceLimits) : EvalContext :=
  { block := 0
    stack_depth := 0
    locals := fun _ => none
    memory :=
      { allocs := []
        next_alloc_id := 0
        constraints := { constraints := [], next_id := 0 }
        root_abstract_alloc := none }
    limits := limits }

/-- Modelled from the spec: pushing the entry stack frame
(`EvalContext::push_stack_frame`), observed here as depth only. -/
def EvalContext.push_stack_frame (cx : EvalContext) : EvalContext :=
  { cx with stack_depth := cx.stack_depth + 1 }

/-- Transfer of control to a basic block (`EvalContext::goto_block`). -/
def EvalContext.goto_block (cx : EvalContext) (b : Nat) : EvalContext :=
  { cx with block := b }

/-- Writing a primitive value to a local (`EvalContext::write_primval`). -/
def EvalContext.write_primval (cx : EvalContext) (lvalue : Nat) (prim : PrimVal)
    (ty : Ty) : EvalContext :=
  { cx with locals := write_local cx.locals lvalue prim ty }

/-- Writing a general value to a local (`EvalContext::write_value`). -/
def EvalContext.write_value (cx : EvalContext) (lvalue : Nat) (v : Value) (ty : Ty) :
    EvalContext :=
  { cx with locals := fun n => if n = lvalue then some (v, ty) else cx.locals n }

/-- One fork outcome (`FinishStep`): constraints to apply, the target block,
and an optional value to materialize. -/
structure FinishStep where
  constraints : List Constraint
  goto_block : Nat
  set_lvalue : Option (Nat × PrimVal × Ty)

/-- Success or structured failure of one completed path. -/
inductive PathResult
  | success
  | failure (e : EvalError)
deriving DecidableEq

/-- The record handed to the consumer at each path completion
(`ExecutionComplete`). -/
structure ExecutionComplete where
  input : List Nat
  result : PathResult
deriving DecidableEq

/-- The worklist scheduler state (`Executor`): a FIFO queue of execution
states and an optional consumer callback. -/
structure Executor where
  queue : List EvalContext
  consumer : Option (ExecutionComplete → Bool)

/-- The hard-coded byte length of the symbolic input buffer
(`HACK_ABSTRACT_ALLOC_LEN`). -/
def HACK_ABSTRACT_ALLOC_LEN : Nat := 21

/-- Enqueue an execution state at the tail (`Executor::push_eval_context`). -/
def Executor.push_eval_context (ex : Executor) (cx : EvalContext) : Executor :=
  { ex with queue := ex.queue ++ [cx] }

/-- Construction of a target-function-mode executor
(`Executor::new_symbolic`): a fresh state with its entry frame, a fully
symbolic buffer of `HACK_ABSTRACT_ALLOC_LEN` bytes allocated and bound (as a
pointer/length pair) to the function's sole parameter, and recorded as the
root symbolic allocation.  The frontend's signature checks are performed on
IR type data external to this model. -/
def new_symbolic (limits : ResourceLimits) (consumer : Option (ExecutionComplete → Bool)) :
    Executor :=
  let result : Executor := { queue := [], consumer := consumer }
  let ecx := EvalContext.new limits
  let ecx := ecx.push_stack_frame
  let len := HACK_ABSTRACT_ALLOC_LEN
  let pm := ecx.memory.allocate_abstract len 8
  let ecx := { ecx with memory := pm.2 }
  let val := Value.ByValPair (.Ptr ⟨pm.1, 0⟩) (.Bytes len)
  let ecx := ecx.write_value 1 val .TyRef
  let ecx := { ecx with memory := { ecx.memory with root_abstract_alloc := some pm.1 } }
  result.push_eval_context ecx

/-- The result of asking a state for one unit of work (`EvalContext::step`):
`Ok((true, None))` is continue without fork, `Ok((true, Some(branches)))` is
a fork, `Ok((false, _))` is completion, `Err(e)` is a path-local error.  The
stepped state is returned alongside, since stepping mutates it. -/
inductive StepOutcome
  | ok (keep_going : Bool) (branches : Option (List FinishStep)) (cx : EvalContext)
  | error (e : EvalError) (cx : EvalContext)

/-- One iteration of the scheduler's per-constraint loop while applying a
fork outcome: push the constraint, then write the optional lvalue, then set
the control point to the target block. -/
def finish_step_iter (fs : FinishStep) (cx1 : EvalContext) (c : Constraint) : EvalContext :=
  let cx2 :=
    { cx1 with
      memory := { cx1.memory with constraints := cx1.memory.constraints.push_constraint c } }
  let cx3 :=
    match fs.set_lvalue with
    | some lpt => cx2.write_primval lpt.1 lpt.2.1 lpt.2.2
    | none => cx2
  cx3.goto_block fs.goto_block

/-- Application of one fork outcome to a structural copy of the forking
state, exactly as the scheduler's inner loop does: the lvalue write and the
control transfer sit inside the per-constraint loop in the source, so they
happen once per constraint of the outcome. -/
def apply_finish_step (cx : EvalContext) (fs : FinishStep) : EvalContext :=
  fs.constraints.foldl (finish_step_iter fs) cx

/-- How a run of the scheduler loop ended: queue exhausted, consumer asked to
stop, an `unimplemented!()` placeholder aborted the process, or the fuel
bound of this embedding was reached. -/
inductive RunExit
  | queueEmpty
  | consumerStopped
  | panicked
  | fuelOut
deriving DecidableEq

/-- The observable outcome of a scheduler run: the final executor, the
sequence of completions handed to the consumer, the emitted diagnostics, and
how the loop ended. -/
structure RunResult where
  exec : Executor
  trace : List ExecutionComplete
  diags : List String
  exit : RunExit

/-- The diagnostic emitted when the leak report is non-zero. -/
def leak_message : String := "the evaluated program leaked memory"

/-- The scheduler loop (`Executor::run`), made total by a fuel bound.  Each
iteration pops the head state, steps it, and dispatches on the outcome
exactly as the source does: continue pushes the state back to the tail; a
fork with no outcome hits the `unimplemented!()` placeholder; a fork pushes
one adjusted copy per outcome to the tail; completion invokes the consumer,
then releases the root symbolic allocation and emits the leak diagnostic,
then honors the consumer's boolean; an error invokes the consumer with a
failure and honors its boolean, with no deallocation or leak check. -/
def Executor.run (step : EvalContext → StepOutcome) : Nat → Executor → RunResult
  | 0, ex => ⟨ex, [], [], .fuelOut⟩
  | fuel + 1, ex =>
    match ex.queue with
    | [] => ⟨ex, [], [], .queueEmpty⟩
    | ecx :: rest =>
      match step ecx with
      | .ok true none cx =>
          Executor.run step fuel { ex with queue := rest ++ [cx] }
      | .ok true (some branches) cx =>
          if branches.isEmpty then
            ⟨{ ex with queue := rest }, [], [], .panicked⟩
          else
            Executor.run step fuel
              { ex with queue := rest ++ branches.map (apply_finish_step cx) }
      | .ok false _ cx =>
          let consumed : Option ExecutionComplete × Bool :=
            match ex.consumer with
            | some f =>
                let comp : ExecutionComplete :=
                  ⟨cx.memory.constraints.get_satisfying_values HACK_ABSTRACT_ALLOC_LEN, .success⟩
                (some comp, f comp)
            | none => (none, true)
          let cx1 :=
            match cx.memory.root_abstract_alloc with
            | some p => { cx with memory := cx.memory.deallocate p }
            | none => cx
          let leaks := cx1.memory.leak_report
          let diags := if leaks ≠ 0 then [leak_message] else []
          if consumed.2 then
            let r := Executor.run step fuel { ex with queue := rest }
            ⟨r.exec, consumed.1.toList ++ r.trace, diags ++ r.diags, r.exit⟩
          else
            ⟨{ ex with queue := rest }, consumed.1.toList, diags, .consumerStopped⟩
      | .error e cx =>
          let consumed : Option ExecutionComplete × Bool :=
            match ex.consumer with
            | some f =>
                let comp : ExecutionComplete :=
                  ⟨cx.memory.constraints.get_satisfying_values HACK_ABSTRACT_ALLOC_LEN, .failure e⟩
                (some comp, f comp)
            | none => (none, true)
          if consumed.2 then
            let r := Executor.run step fuel { ex with queue := rest }
            ⟨r.exec, consumed.1.toList ++ r.trace, r.diags, r.exit⟩
          else
            ⟨{ ex with queue := rest }, consumed.1.toList, [], .consumerStopped⟩

/-- A minimal concrete execution state, used to exercise the scheduler on
explicit inputs. -/
def cx0 : EvalContext :=
  { block := 0
    stack_depth := 1
    locals := fun _ => none
    memory :=
      { allocs := []
        next_alloc_id := 0
        constraints := { constraints := [], next_id := 0 }
        root_abstract_alloc := none }
    limits := ⟨0, 0, 0, 0⟩ }

/-- A concrete fork outcome with one constraint, a target block and a value
to materialize, used to exercise the scheduler on explicit inputs. -/
def fs1 : FinishStep :=
  ⟨[Constraint.path (.Bytes 1)], 2, some (3, .Bytes 7, .TyUint .U8)⟩

/-- A concrete execution state owning a root symbolic allocation and one
further live allocation, used to exercise the scheduler's leak check. -/
def cx_leaky : EvalContext :=
  { cx0 with
    memory :=
      { allocs := [(0, 21), (1, 5)]
        next_alloc_id := 2
        constraints := { constraints := [], next_id := 0 }
        root_abstract_alloc := some 0 } }

/-- The canonical 128-bit representation invariant for a concrete value of an
integer kind: unsigned values fit the kind's width, signed values are stored
sign-extended from the kind's width (`PrimVal::from_i128`). -/
def canonical_bytes (kind : PrimValKind) (n : Nat) : Prop :=
  if kind.is_signed = true then
    n < 2 ^ 128 ∧ n = sext128Bits (8 * kind.num_bytes) (n % 2 ^ (8 * kind.num_bytes))
  else
    n < 2 ^ (8 * kind.num_bytes)

instance (kind : PrimValKind) (n : Nat) : Decidable (canonical_bytes kind n) := by
  unfold canonical_bytes
  infer_instance

theorem PrimValKind.num_bytes_le (k : PrimValKind) : k.num_bytes ≤ 16 := by
  cases k <;> simp [PrimValKind.num_bytes]

theorem PrimValKind.num_bytes_pos (k : PrimValKind) : 0 < k.num_bytes := by
  cases k <;> simp [PrimValKind.num_bytes]

theorem toBytes_length (k n : Nat) : (toBytes k n).length = k := by
  induction k generalizing n with
  | zero => rfl
  | succ k ih => simp [toBytes, ih]

theorem toBytes_lt (k n : Nat) : ∀ b ∈ toBytes k n, b < 256 := by
  induction k generalizing n with
  | zero => intro b hb; simp [toBytes] at hb
  | succ k ih =>
    intro b hb
    simp only [toBytes, List.mem_cons] at hb
    rcases hb with h | h
    · subst h; exact Nat.mod_lt _ (by norm_num)
    · exact ih _ _ h

theorem fromBytes_toBytes (k n : Nat) (h : n < 2 ^ (8 * k)) :
    fromBytes (toBytes k n) = n := by
  induction k generalizing n with
  | zero =>
    simp only [Nat.mul_zero, pow_zero, Nat.lt_one_iff] at h
    simp [toBytes, fromBytes, h]
  | succ k ih =>
    have hdiv : n / 256 < 2 ^ (8 * k) := by
      have h2 : 2 ^ (8 * (k + 1)) = 2 ^ (8 * k) * 256 := by ring
      rw [Nat.div_lt_iff_lt_mul (by norm_num : 0 < 256)]
      omega
    simp only [toBytes, fromBytes, ih _ hdiv]
    omega

theorem toBytes_fromBytes (l : List Nat) (h : ∀ b ∈ l, b < 256) :
    toBytes l.length (fromBytes l) = l := by
  induction l with
  | nil => rfl
  | cons b bs ih =>
    have hb : b < 256 := h b (by simp)
    have hmod : (b + 256 * fromBytes bs) % 256 = b := by
      rw [Nat.add_mul_mod_self_left, Nat.mod_eq_of_lt hb]
    have hdiv : (b + 256 * fromBytes bs) / 256 = fromBytes bs := by
      rw [Nat.add_mul_div_left _ _ (by norm_num : 0 < 256), Nat.div_eq_of_lt hb]
      omega
    simp only [List.length_cons, toBytes, fromBytes, hmod, hdiv]
    rw [ih (fun x hx => h x (by simp [hx]))]

theorem fromBytes_lt (l : List Nat) (h : ∀ b ∈ l, b < 256) :
    fromBytes l < 2 ^ (8 * l.length) := by
  induction l with
  | nil => simp [fromBytes]
  | cons b bs ih =>
    have hb : b < 256 := h b (by simp)
    have hbs : fromBytes bs < 2 ^ (8 * bs.length) := ih (fun x hx => h x (by simp [hx]))
    have h2 : 2 ^ (8 * (bs.length + 1)) = 2 ^ (8 * bs.length) * 256 := by ring
    simp only [fromBytes, List.length_cons]
    calc b + 256 * fromBytes bs < 256 * (fromBytes bs + 1) := by omega
    _ ≤ 256 * 2 ^ (8 * bs.length) := by
        have := hbs
        exact Nat.mul_le_mul_left 256 (by omega)
    _ = 2 ^ (8 * (bs.length + 1)) := by rw [h2]; ring

theorem uswap_lt (k n : Nat) : uswap k n < 2 ^ (8 * k) := by
  have hlen : (toBytes k n).reverse.length = k := by
    rw [List.length_reverse, toBytes_length]
  have := fromBytes_lt (toBytes k n).reverse
    (fun b hb => toBytes_lt k n b (List.mem_reverse.mp hb))
  rw [hlen] at this
  exact this

theorem uswap_uswap (k n : Nat) (h : n < 2 ^ (8 * k)) : uswap k (uswap k n) = n := by
  unfold uswap
  have hlen : (toBytes k n).reverse.length = k := by
    rw [List.length_reverse, toBytes_length]
  have hb : ∀ b ∈ (toBytes k n).reverse, b < 256 :=
    fun b hbm => toBytes_lt k n b (List.mem_reverse.mp hbm)
  have h1 : toBytes k (fromBytes (toBytes k n).reverse) = (toBytes k n).reverse := by
    have := toBytes_fromBytes (toBytes k n).reverse hb
    rwa [hlen] at this
  rw [h1, List.reverse_reverse, fromBytes_toBytes k n h]

theorem toBytes_add_mul (k n m : Nat) : toBytes k (n + 2 ^ (8 * k) * m) = toBytes k n := by
  induction k generalizing n m with
  | zero => rfl
  | succ k ih =>
    have h2 : 2 ^ (8 * (k + 1)) = 256 * 2 ^ (8 * k) := by ring
    have hmod : (n + 2 ^ (8 * (k + 1)) * m) % 256 = n % 256 := by
      rw [h2]
      have : n + 256 * 2 ^ (8 * k) * m = n + 256 * (2 ^ (8 * k) * m) := by ring
      rw [this, Nat.add_mul_mod_self_left]
    have hdiv : (n + 2 ^ (8 * (k + 1)) * m) / 256 = n / 256 + 2 ^ (8 * k) * m := by
      rw [h2]
      have : n + 256 * 2 ^ (8 * k) * m = n + 256 * (2 ^ (8 * k) * m) := by ring
      rw [this, Nat.add_mul_div_left _ _ (by norm_num : 0 < 256)]
    simp only [toBytes, hmod, hdiv, ih]

theorem uswap_emod (k n : Nat) : uswap k n = uswap k (n % 2 ^ (8 * k)) := by
  unfold uswap
  have : n = n % 2 ^ (8 * k) + 2 ^ (8 * k) * (n / 2 ^ (8 * k)) := by
    rw [Nat.mod_add_div]
  conv in toBytes k n => rw [this]
  rw [toBytes_add_mul]

theorem sext128Bits_emod (w p : Nat) (hw : w ≤ 128) (hp : p < 2 ^ w) :
    sext128Bits w p % 2 ^ w = p := by
  unfold sext128Bits
  split
  · exact Nat.mod_eq_of_lt hp
  · have h1 : (2 : Nat) ^ 128 - 2 ^ w = 2 ^ w * (2 ^ (128 - w) - 1) := by
      rw [Nat.mul_sub_one]
      congr 1
      rw [← pow_add]
      congr 1
      omega
    rw [h1, Nat.add_mul_mod_self_left, Nat.mod_eq_of_lt hp]

theorem uswap_sext (k q : Nat) (hk : 8 * k ≤ 128) :
    uswap k (sext128Bits (8 * k) q) = uswap k q := by
  unfold sext128Bits
  split
  · rfl
  · have h1 : (2 : Nat) ^ 128 - 2 ^ (8 * k) = 2 ^ (8 * k) * (2 ^ (128 - 8 * k) - 1) := by
      rw [Nat.mul_sub_one]
      congr 1
      rw [← pow_add]
      congr 1
      omega
    unfold uswap
    rw [h1, toBytes_add_mul]

theorem iswap_iswap (k n : Nat) (hk : 8 * k ≤ 128)
    (hcan : n = sext128Bits (8 * k) (n % 2 ^ (8 * k))) :
    iswap k (iswap k n) = n := by
  unfold iswap
  rw [uswap_sext k _ hk]
  rw [uswap_emod k n]
  rw [uswap_uswap k (n % 2 ^ (8 * k)) (Nat.mod_lt _ (Nat.pos_pow_of_pos _ (by norm_num)))]
  exact hcan.symm

theorem bswap_abstract_involution (nb : Nat) (hnb : nb ≤ 16) (s : SBytes) :
    bswap_abstract nb (bswap_abstract nb s) = s := by
  funext i
  simp only [bswap_abstract, SBytes.get]
  by_cases h : i.val < nb
  · simp only [h, if_true]
    have h1 : nb - 1 - i.val < 16 := by omega
    rw [dif_pos h1]
    have h2 : nb - 1 - i.val < nb := by omega
    simp only [h2, if_true]
    have h3 : nb - 1 - (nb - 1 - i.val) = i.val := by omega
    rw [h3, dif_pos i.isLt]
  · simp only [h, if_false]

/-- C8: for every value of an integer kind, concrete or partially symbolic,
applying the byte-swap intrinsic twice yields the value again cell-for-cell,
and the constraint store is untouched by either application (byte-swap on a
symbolic operand is a pure cell permutation adding no constraint). -/
theorem c8_bswap_involution (ctx : ConstraintContext) (kind : PrimValKind)
    (hk : kind.is_int = true) :
    (∀ n : Nat, canonical_bytes kind n →
      ∃ m : Nat, numeric_intrinsic ctx "bswap" (.Bytes n) kind = .ok (.Bytes m, ctx) ∧
        numeric_intrinsic ctx "bswap" (.Bytes m) kind = .ok (.Bytes n, ctx)) ∧
    (∀ s : SBytes,
      ∃ s1 : SBytes,
        numeric_intrinsic ctx "bswap" (.Abstract s) kind = .ok (.Abstract s1, ctx) ∧
        numeric_intrinsic ctx "bswap" (.Abstract s1) kind = .ok (.Abstract s, ctx)) := by
  constructor
  · intro n hcan
    cases kind
    case I8 =>
      have h : n = sext128Bits (8 * 1) (n % 2 ^ (8 * 1)) := by
        have h0 := hcan
        simp [canonical_bytes, PrimValKind.is_signed, PrimValKind.num_bytes] at h0
        simpa using h0.2
      exact ⟨iswap 1 n, rfl, by simp [numeric_intrinsic, iswap_iswap 1 n (by norm_num) h]⟩
    case I16 =>
      have h : n = sext128Bits (8 * 2) (n % 2 ^ (8 * 2)) := by
        have h0 := hcan
        simp [canonical_bytes, PrimValKind.is_signed, PrimValKind.num_bytes] at h0
        simpa using h0.2
      exact ⟨iswap 2 n, rfl, by simp [numeric_intrinsic, iswap_iswap 2 n (by norm_num) h]⟩
    case I32 =>
      have h : n = sext128Bits (8 * 4) (n % 2 ^ (8 * 4)) := by
        have h0 := hcan
        simp [canonical_bytes, PrimValKind.is_signed, PrimValKind.num_bytes] at h0
        simpa using h0.2
      exact ⟨iswap 4 n, rfl, by simp [numeric_intrinsic, iswap_iswap 4 n (by norm_num) h]⟩
    case I64 =>
      have h : n = sext128Bits (8 * 8) (n % 2 ^ (8 * 8)) := by
        have h0 := hcan
        simp [canonical_bytes, PrimValKind.is_signed, PrimValKind.num_bytes] at h0
        simpa using h0.2
      exact ⟨iswap 8 n, rfl, by simp [numeric_intrinsic, iswap_iswap 8 n (by norm_num) h]⟩
    case I128 =>
      have h : n = sext128Bits (8 * 16) (n % 2 ^ (8 * 16)) := by
        have h0 := hcan
        simp [canonical_bytes, PrimValKind.is_signed, PrimValKind.num_bytes] at h0
        simpa using h0.2
      exact ⟨iswap 16 n, rfl, by simp [numeric_intrinsic, iswap_iswap 16 n (by norm_num) h]⟩
    case U8 =>
      have h : n < 2 ^ (8 * 1) := by
        simpa [canonical_bytes, PrimValKind.is_signed, PrimValKind.num_bytes] using hcan
      exact ⟨uswap 1 n, rfl, by simp [numeric_intrinsic, uswap_uswap 1 n h]⟩
    case U16 =>
      have h : n < 2 ^ (8 * 2) := by
        simpa [canonical_bytes, PrimValKind.is_signed, PrimValKind.num_bytes] using hcan
      exact ⟨uswap 2 n, rfl, by simp [numeric_intrinsic, uswap_uswap 2 n h]⟩
    case U32 =>
      have h : n < 2 ^ (8 * 4) := by
        simpa [canonical_bytes, PrimValKind.is_signed, PrimValKind.num_bytes] using hcan
      exact ⟨uswap 4 n, rfl, by simp [numeric_intrinsic, uswap_uswap 4 n h]⟩
    case U64 =>
      have h : n < 2 ^ (8 * 8) := by
        simpa [canonical_bytes, PrimValKind.is_signed, PrimValKind.num_bytes] using hcan
      exact ⟨uswap 8 n, rfl, by simp [numeric_intrinsic, uswap_uswap 8 n h]⟩
    case U128 =>
      have h : n < 2 ^ (8 * 16) := by
        simpa [canonical_bytes, PrimValKind.is_signed, PrimValKind.num_bytes] using hcan
      exact ⟨uswap 16 n, rfl, by simp [numeric_intrinsic, uswap_uswap 16 n h]⟩
    all_goals simp [PrimValKind.is_int] at hk
  · intro s
    refine ⟨bswap_abstract kind.num_bytes s, rfl, ?_⟩
    simp [numeric_intrinsic,
      bswap_abstract_involution kind.num_bytes (PrimValKind.num_bytes_le kind) s]

theorem c8_bswap_involution_witness :
    ∃ m : Nat,
      numeric_intrinsic ⟨[], 0⟩ "bswap" (.Bytes 4660) .U16 = .ok (.Bytes m, ⟨[], 0⟩) ∧
      numeric_intrinsic ⟨[], 0⟩ "bswap" (.Bytes m) .U16 = .ok (.Bytes 4660, ⟨[], 0⟩) :=
  (c8_bswap_involution ⟨[], 0⟩ .U16 (by decide)).1 4660 (by decide)

/-- C9: the nonzero-precondition zero-count intrinsics fail immediately with
an intrinsic-misuse error on a concrete zero operand, before the destination
is written; on a symbolic operand no nonzero constraint is pushed — the
store grows by exactly the named unary relation and the destination receives
the fresh derived value. -/
theorem c9_nonzero_count_intrinsics (locals : Locals) (ctx : ConstraintContext)
    (kind : PrimValKind) (dest : Nat) (ty : Ty) :
    (call_count_intrinsic locals ctx "cttz_nonzero" (.Bytes 0) kind dest ty =
      .error (.Intrinsic "cttz_nonzero called on 0")) ∧
    (call_count_intrinsic locals ctx "ctlz_nonzero" (.Bytes 0) kind dest ty =
      .error (.Intrinsic "ctlz_nonzero called on 0")) ∧
    (∀ s : SBytes,
      call_count_intrinsic locals ctx "cttz_nonzero" (.Abstract s) kind dest ty =
        .ok (write_local locals dest (fresh_abstract ctx.next_id kind.num_bytes) ty,
          { constraints := ctx.constraints ++
              [Constraint.unaryIntrinsic .Cttz (.Abstract s) kind
                (fresh_abstract ctx.next_id kind.num_bytes)],
            next_id := ctx.next_id + kind.num_bytes })) ∧
    (∀ s : SBytes,
      call_count_intrinsic locals ctx "ctlz_nonzero" (.Abstract s) kind dest ty =
        .ok (write_local locals dest (fresh_abstract ctx.next_id kind.num_bytes) ty,
          { constraints := ctx.constraints ++
              [Constraint.unaryIntrinsic .Ctlz (.Abstract s) kind
                (fresh_abstract ctx.next_id kind.num_bytes)],
            next_id := ctx.next_id + kind.num_bytes })) := by
  refine ⟨rfl, rfl, fun s => rfl, fun s => rfl⟩

/-- C10: an atomic compare-exchange overwrites the target memory with the
replacement value unconditionally — also when the old value differs from the
expected one — and the destination receives the pair of the old value and
the equality flag computed by the binary-operation evaluator, which is a
derived symbolic value when the old value is symbolic. -/
theorem c10_atomic_cxchg_unconditional (heap : Heap) (ctx : ConstraintContext)
    (ptr : Nat) (expect_old change : PrimVal) (ty : Ty)
    (heap1 : Heap) (pair : PrimVal × PrimVal) (ctx1 : ConstraintContext)
    (h : atomic_cxchg heap ctx ptr expect_old change ty = .ok (heap1, pair, ctx1)) :
    heap1 ptr = change ∧ pair.1 = heap ptr ∧
    (∀ a b : Nat, heap ptr = .Bytes a → expect_old = .Bytes b →
      pair.2 = .Bytes (if a == b then 1 else 0) ∧ ctx1 = ctx) ∧
    (∀ s : SBytes, heap ptr = .Abstract s →
      pair.2 = fresh_abstract ctx.next_id PrimValKind.Bool.num_bytes ∧
      ctx1.constraints = ctx.constraints ++
        [Constraint.binop .Eq (.Abstract s) expect_old .Bool pair.2]) := by
  simp only [atomic_cxchg] at h
  cases hb : binary_op ctx .Eq (heap ptr) ty expect_old ty with
  | error e =>
    rw [hb] at h
    exact absurd h (by simp)
  | ok rc =>
    obtain ⟨r, ctxr⟩ := rc
    rw [hb] at h
    obtain ⟨hheap, hpair, hctx⟩ : (fun n => if n = ptr then change else heap n) = heap1 ∧
        (heap ptr, r.1) = pair ∧ ctxr = ctx1 := by
      simpa [Prod.ext_iff] using h
    refine ⟨?_, ?_, ?_, ?_⟩
    · rw [← hheap]; simp
    · rw [← hpair]
    · intro a b ha hbv
      rw [ha, hbv] at hb
      simp only [binary_op] at hb
      obtain ⟨h1, h2⟩ : (PrimVal.Bytes (if a == b then 1 else 0), false) = r ∧ ctx = ctxr := by
        simpa [Prod.ext_iff] using hb
      constructor
      · rw [← hpair]; simp [← h1]
      · rw [← hctx, ← h2]
    · intro s ha
      rw [ha] at hb
      simp only [binary_op, ConstraintContext.add_binop_constraint] at hb
      obtain ⟨h1, h2⟩ : (fresh_abstract ctx.next_id PrimValKind.Bool.num_bytes, false) = r ∧
          ({ constraints := ctx.constraints ++
              [Constraint.binop .Eq (.Abstract s) expect_old .Bool
                (fresh_abstract ctx.next_id PrimValKind.Bool.num_bytes)],
             next_id := ctx.next_id + PrimValKind.Bool.num_bytes } : ConstraintContext) = ctxr := by
        simpa [Prod.ext_iff] using hb
      have hp2 : pair.2 = fresh_abstract ctx.next_id PrimValKind.Bool.num_bytes := by
        rw [← hpair]; simp [← h1]
      refine ⟨hp2, ?_⟩
      rw [← hctx, ← h2, hp2]

theorem c10_atomic_cxchg_unconditional_witness :
    ∃ out : Heap × (PrimVal × PrimVal) × ConstraintContext,
      atomic_cxchg (fun _ => PrimVal.Bytes 3) ⟨[], 0⟩ 0 (PrimVal.Bytes 4) (PrimVal.Bytes 9)
        (Ty.TyUint .U8) = .ok out ∧
      out.1 0 = PrimVal.Bytes 9 ∧ out.2.1.1 = PrimVal.Bytes 3 ∧
      out.2.1.2 = PrimVal.Bytes 0 := by
  refine ⟨_, rfl, ?_⟩
  have h := c10_atomic_cxchg_unconditional (fun _ => PrimVal.Bytes 3) ⟨[], 0⟩ 0
    (PrimVal.Bytes 4) (PrimVal.Bytes 9) (Ty.TyUint .U8) _ _ _ rfl
  obtain ⟨h1, h2, h3, _⟩ := h
  exact ⟨h1, h2, (h3 3 4 rfl rfl).1⟩

/-- C5: a cast of a partially symbolic value between integer/character
kinds keeps the shared low cells; a narrowing cast drops (zeroes) every
cell at or beyond the destination width; a widening cast's new high cells
in `[src_size, dest_size)` are concrete zero; and the result satisfies the
destination-width cell invariant (every cell at or beyond the destination
width is concrete zero) — provided the operand satisfies the source-width
cell invariant — with the constraint store left untouched. -/
theorem c5_cast_abstract_int_resize (fops : FloatOps) (ctx : ConstraintContext)
    (s : SBytes) (src_ty dest_ty : Ty)
    (hsrc : ((ty_to_primval_kind src_ty).is_int ||
      ty_to_primval_kind src_ty == PrimValKind.Char) = true)
    (hdest : ((ty_to_primval_kind dest_ty).is_int ||
      ty_to_primval_kind dest_ty == PrimValKind.Char) = true)
    (hinv : ∀ i : Nat, (ty_to_primval_kind src_ty).num_bytes ≤ i → i < 16 →
      SBytes.get s i = SByte.Concrete 0) :
    ∃ s1 : SBytes,
      cast_primval fops ctx (.Abstract s) src_ty dest_ty = .ok (.Abstract s1, ctx) ∧
      (∀ i : Nat,
        i < min (ty_to_primval_kind src_ty).num_bytes (ty_to_primval_kind dest_ty).num_bytes →
        SBytes.get s1 i = SBytes.get s i) ∧
      (∀ i : Nat, (ty_to_primval_kind src_ty).num_bytes ≤ i →
        i < (ty_to_primval_kind dest_ty).num_bytes →
        SBytes.get s1 i = SByte.Concrete 0) ∧
      (∀ i : Nat, (ty_to_primval_kind dest_ty).num_bytes ≤ i → i < 16 →
        SBytes.get s1 i = SByte.Concrete 0) := by
  refine ⟨fun i =>
    if (ty_to_primval_kind dest_ty).num_bytes ≤ i.val ∧
        i.val < (ty_to_primval_kind src_ty).num_bytes then
      SByte.Concrete 0
    else s i, ?_, ?_, ?_, ?_⟩
  · simp [cast_primval, hsrc, hdest]
  · intro i hi
    have h16 : i < 16 :=
      lt_of_lt_of_le (lt_of_lt_of_le hi (min_le_right _ _))
        (PrimValKind.num_bytes_le _)
    simp only [SBytes.get, dif_pos h16]
    rw [if_neg (by simp only [Nat.lt_min] at hi; omega)]
  · intro i hsrci hdesti
    have h16 : i < 16 := lt_of_lt_of_le hdesti (PrimValKind.num_bytes_le _)
    simp only [SBytes.get, dif_pos h16]
    rw [if_neg (by omega)]
    have := hinv i hsrci h16
    simp only [SBytes.get, dif_pos h16] at this
    exact this
  · intro i hd h16
    simp only [SBytes.get, dif_pos h16]
    by_cases hsrci : i < (ty_to_primval_kind src_ty).num_bytes
    · rw [if_pos ⟨hd, hsrci⟩]
    · rw [if_neg (by omega)]
      have := hinv i (by omega) h16
      simp only [SBytes.get, dif_pos h16] at this
      exact this

theorem c5_cast_abstract_int_resize_witness :
    (∃ s1 : SBytes,
      cast_primval ⟨fun _ => 0, fun _ => 0, fun _ => 0, fun _ => 0⟩ ⟨[], 0⟩
        (.Abstract (fun i => if i.val < 4 then SByte.Abstract i.val else SByte.Concrete 0))
        (.TyUint .U32) (.TyUint .U8) = .ok (.Abstract s1, ⟨[], 0⟩) ∧
      (∀ i : Nat,
        i < min (ty_to_primval_kind (.TyUint .U32)).num_bytes
          (ty_to_primval_kind (.TyUint .U8)).num_bytes →
        SBytes.get s1 i =
          SBytes.get (fun i => if i.val < 4 then SByte.Abstract i.val else SByte.Concrete 0) i) ∧
      (∀ i : Nat, (ty_to_primval_kind (.TyUint .U32)).num_bytes ≤ i →
        i < (ty_to_primval_kind (.TyUint .U8)).num_bytes →
        SBytes.get s1 i = SByte.Concrete 0) ∧
      (∀ i : Nat, (ty_to_primval_kind (.TyUint .U8)).num_bytes ≤ i → i < 16 →
        SBytes.get s1 i = SByte.Concrete 0)) ∧
    (∃ s1 : SBytes,
      cast_primval ⟨fun _ => 0, fun _ => 0, fun _ => 0, fun _ => 0⟩ ⟨[], 0⟩
        (.Abstract (fun i => if i.val < 1 then SByte.Abstract i.val else SByte.Concrete 0))
        (.TyUint .U8) (.TyUint .U32) = .ok (.Abstract s1, ⟨[], 0⟩) ∧
      (∀ i : Nat,
        i < min (ty_to_primval_kind (.TyUint .U8)).num_bytes
          (ty_to_primval_kind (.TyUint .U32)).num_bytes →
        SBytes.get s1 i =
          SBytes.get (fun i => if i.val < 1 then SByte.Abstract i.val else SByte.Concrete 0) i) ∧
      (∀ i : Nat, (ty_to_primval_kind (.TyUint .U8)).num_bytes ≤ i →
        i < (ty_to_primval_kind (.TyUint .U32)).num_bytes →
        SBytes.get s1 i = SByte.Concrete 0) ∧
      (∀ i : Nat, (ty_to_primval_kind (.TyUint .U32)).num_bytes ≤ i → i < 16 →
        SBytes.get s1 i = SByte.Concrete 0)) :=
  ⟨c5_cast_abstract_int_resize ⟨fun _ => 0, fun _ => 0, fun _ => 0, fun _ => 0⟩ ⟨[], 0⟩
    (fun i => if i.val < 4 then SByte.Abstract i.val else SByte.Concrete 0)
    (.TyUint .U32) (.TyUint .U8) (by decide) (by decide)
    (by
      intro i h1 h2
      simp only [ty_to_primval_kind, PrimValKind.num_bytes] at h1
      simp only [SBytes.get, dif_pos h2]
      rw [if_neg (by omega)]),
   c5_cast_abstract_int_resize ⟨fun _ => 0, fun _ => 0, fun _ => 0, fun _ => 0⟩ ⟨[], 0⟩
    (fun i => if i.val < 1 then SByte.Abstract i.val else SByte.Concrete 0)
    (.TyUint .U8) (.TyUint .U32) (by decide) (by decide)
    (by
      intro i h1 h2
      simp only [ty_to_primval_kind, PrimValKind.num_bytes] at h1
      simp only [SBytes.get, dif_pos h2]
      rw [if_neg (by omega)])⟩

/-- C6: a cast of a symbolic boolean to an integer kind never reads the
boolean's bytes: it returns the fresh derived value of the constraint
store's ternary-select operation with then-value 1 and else-value 0, so any
satisfying assignment materializes 1 when the boolean is true and 0 when it
is false. -/
theorem c6_cast_bool_to_int_select (fops : FloatOps) (ctx : ConstraintContext)
    (s : SBytes) (dest_ty : Ty)
    (hdest : (ty_to_primval_kind dest_ty).is_int = true) :
    ∃ v : PrimVal, ∃ ctx1 : ConstraintContext,
      cast_primval fops ctx (.Abstract s) .TyBool dest_ty = .ok (v, ctx1) ∧
      v = fresh_abstract ctx.next_id (ty_to_primval_kind dest_ty).num_bytes ∧
      ctx1.constraints = ctx.constraints ++
        [Constraint.select (.Abstract s) (.Bytes 1) (.Bytes 0) (ty_to_primval_kind dest_ty) v] ∧
      ∀ rho : Nat → Nat, satisfies rho ctx1 = true →
        (evalPrimBool rho (.Abstract s) = some true →
          evalPrim rho (ty_to_primval_kind dest_ty) v = some 1) ∧
        (evalPrimBool rho (.Abstract s) = some false →
          evalPrim rho (ty_to_primval_kind dest_ty) v = some 0) := by
  refine ⟨fresh_abstract ctx.next_id (ty_to_primval_kind dest_ty).num_bytes,
    { constraints := ctx.constraints ++
        [Constraint.select (.Abstract s) (.Bytes 1) (.Bytes 0) (ty_to_primval_kind dest_ty)
          (fresh_abstract ctx.next_id (ty_to_primval_kind dest_ty).num_bytes)],
      next_id := ctx.next_id + (ty_to_primval_kind dest_ty).num_bytes }, ?_, rfl, rfl, ?_⟩
  · have h1 : ((ty_to_primval_kind Ty.TyBool).is_int ||
        ty_to_primval_kind Ty.TyBool == PrimValKind.Char) = false := by decide
    have h2 : (ty_to_primval_kind Ty.TyBool == PrimValKind.Bool) = true := by decide
    simp [cast_primval, h1, h2, hdest, ConstraintContext.add_if_then_else]
  · intro rho hsat
    have hc : constraint_holds rho
        (Constraint.select (.Abstract s) (.Bytes 1) (.Bytes 0) (ty_to_primval_kind dest_ty)
          (fresh_abstract ctx.next_id (ty_to_primval_kind dest_ty).num_bytes)) = true := by
      simp only [satisfies, List.all_append, List.all_cons, List.all_nil,
        Bool.and_true, Bool.and_eq_true] at hsat
      exact hsat.2
    constructor
    · intro hbool
      simp only [constraint_holds, hbool] at hc
      simpa [evalPrim] using hc
    · intro hbool
      simp only [constraint_holds, hbool] at hc
      simpa [evalPrim] using hc

theorem c6_cast_bool_to_int_select_witness :
    ∃ v : PrimVal, ∃ ctx1 : ConstraintContext,
      cast_primval ⟨fun _ => 0, fun _ => 0, fun _ => 0, fun _ => 0⟩ ⟨[], 21⟩
        (.Abstract (fun _ => SByte.Abstract 0)) .TyBool (.TyUint .U8) = .ok (v, ctx1) ∧
      v = fresh_abstract 21 (ty_to_primval_kind (.TyUint .U8)).num_bytes ∧
      ctx1.constraints = [] ++
        [Constraint.select (.Abstract (fun _ => SByte.Abstract 0)) (.Bytes 1) (.Bytes 0)
          (ty_to_primval_kind (.TyUint .U8)) v] ∧
      ∀ rho : Nat → Nat, satisfies rho ctx1 = true →
        (evalPrimBool rho (.Abstract (fun _ => SByte.Abstract 0)) = some true →
          evalPrim rho (ty_to_primval_kind (.TyUint .U8)) v = some 1) ∧
        (evalPrimBool rho (.Abstract (fun _ => SByte.Abstract 0)) = some false →
          evalPrim rho (ty_to_primval_kind (.TyUint .U8)) v = some 0) :=
  c6_cast_bool_to_int_select ⟨fun _ => 0, fun _ => 0, fun _ => 0, fun _ => 0⟩ ⟨[], 21⟩
    (fun _ => SByte.Abstract 0) (.TyUint .U8) (by decide)

/-- C7: casting a pointer to a raw pointer or the native-width integer types
preserves the pointer (region identity and offset); casting to any other
integer width fails with the read-pointer-as-bytes error; casting to any
other destination fails with an explicit unimplemented-cast error — pointer
identity is never discarded into a byte array. -/
theorem c7_cast_from_ptr_cases (p : MemoryPointer) (ty : Ty) :
    ((ty = .TyRawPtr ∨ ty = .TyInt .Isize ∨ ty = .TyUint .Usize) →
      cast_from_ptr p ty = .ok (.Ptr p)) ∧
    ((∃ t, ty = .TyInt t ∧ t ≠ IntTy.Isize) ∨ (∃ t, ty = .TyUint t ∧ t ≠ UintTy.Usize) →
      cast_from_ptr p ty = .error .ReadPointerAsBytes) ∧
    ((∃ t, ty = .TyFloat t) ∨ ty = .TyBool ∨ ty = .TyChar ∨ ty = .TyRef →
      cast_from_ptr p ty = .error (.Unimplemented ("ptr to " ++ ty.descr ++ " cast"))) := by
  refine ⟨?_, ?_, ?_⟩
  · rintro (rfl | rfl | rfl) <;> rfl
  · rintro (⟨t, rfl, ht⟩ | ⟨t, rfl, ht⟩)
    · cases t <;> first | rfl | exact absurd rfl ht
    · cases t <;> first | rfl | exact absurd rfl ht
  · rintro (⟨t, rfl⟩ | rfl | rfl | rfl)
    · cases t <;> rfl
    · rfl
    · rfl
    · rfl

theorem c7_cast_from_ptr_cases_witness :
    cast_from_ptr ⟨3, 5⟩ .TyRawPtr = .ok (.Ptr ⟨3, 5⟩) ∧
    cast_from_ptr ⟨3, 5⟩ (.TyInt .Isize) = .ok (.Ptr ⟨3, 5⟩) ∧
    cast_from_ptr ⟨3, 5⟩ (.TyInt .I32) = .error .ReadPointerAsBytes ∧
    cast_from_ptr ⟨3, 5⟩ .TyChar =
      .error (.Unimplemented ("ptr to " ++ Ty.descr .TyChar ++ " cast")) :=
  ⟨(c7_cast_from_ptr_cases ⟨3, 5⟩ .TyRawPtr).1 (Or.inl rfl),
   (c7_cast_from_ptr_cases ⟨3, 5⟩ (.TyInt .Isize)).1 (Or.inr (Or.inl rfl)),
   (c7_cast_from_ptr_cases ⟨3, 5⟩ (.TyInt .I32)).2.1 (Or.inl ⟨.I32, rfl, by decide⟩),
   (c7_cast_from_ptr_cases ⟨3, 5⟩ .TyChar).2.2 (Or.inr (Or.inr (Or.inl rfl)))⟩

theorem finish_step_iter_block (fs : FinishStep) (cx : EvalContext) (c : Constraint) :
    (finish_step_iter fs cx c).block = fs.goto_block := by
  cases h : fs.set_lvalue <;>
    simp [finish_step_iter, h, EvalContext.goto_block, EvalContext.write_primval]

theorem finish_step_iter_memory (fs : FinishStep) (cx : EvalContext) (c : Constraint) :
    (finish_step_iter fs cx c).memory =
      { cx.memory with constraints := cx.memory.constraints.push_constraint c } := by
  cases h : fs.set_lvalue <;>
    simp [finish_step_iter, h, EvalContext.goto_block, EvalContext.write_primval]

theorem finish_step_iter_locals (fs : FinishStep) (cx : EvalContext) (c : Constraint) :
    (finish_step_iter fs cx c).locals =
      match fs.set_lvalue with
      | some lpt => write_local cx.locals lpt.1 lpt.2.1 lpt.2.2
      | none => cx.locals := by
  cases h : fs.set_lvalue <;>
    simp [finish_step_iter, h, EvalContext.goto_block, EvalContext.write_primval]

theorem foldl_iter_constraints (fs : FinishStep) (cs : List Constraint) (cx : EvalContext) :
    (cs.foldl (finish_step_iter fs) cx).memory.constraints.constraints =
      cx.memory.constraints.constraints ++ cs := by
  induction cs generalizing cx with
  | nil => simp
  | cons c cs ih =>
    simp only [List.foldl_cons, ih, finish_step_iter_memory,
      ConstraintContext.push_constraint, List.append_assoc, List.singleton_append]

theorem foldl_iter_block (fs : FinishStep) (cs : List Constraint) (cx : EvalContext)
    (h : cs ≠ []) :
    (cs.foldl (finish_step_iter fs) cx).block = fs.goto_block := by
  induction cs generalizing cx with
  | nil => exact absurd rfl h
  | cons c cs ih =>
    cases cs with
    | nil =>
      simp only [List.foldl_cons, List.foldl_nil]
      exact finish_step_iter_block fs cx c
    | cons c2 cs2 => exact ih _ (by simp)

theorem foldl_iter_locals_some (fs : FinishStep) (cs : List Constraint) (cx : EvalContext)
    (l : Nat) (p : PrimVal) (t : Ty) (hsl : fs.set_lvalue = some (l, p, t)) (h : cs ≠ []) :
    (cs.foldl (finish_step_iter fs) cx).locals l = some (Value.ByVal p, t) := by
  induction cs generalizing cx with
  | nil => exact absurd rfl h
  | cons c cs ih =>
    cases cs with
    | nil =>
      simp only [List.foldl_cons, List.foldl_nil, finish_step_iter_locals, hsl]
      simp [write_local]
    | cons c2 cs2 => exact ih _ (by simp)

theorem apply_finish_step_empty (cx : EvalContext) (fs : FinishStep)
    (h : fs.constraints = []) : apply_finish_step cx fs = cx := by
  unfold apply_finish_step
  rw [h]
  rfl

/-- C1 counterexample: an outcome whose constraint list is empty is pushed
with its control point unchanged — the scheduler does not set it to the
outcome's recorded target block 1, because the control transfer sits inside
the per-constraint loop. -/
theorem c1_fork_empty_constraints_counterexample :
    ((Executor.run (fun cx => StepOutcome.ok true (some [⟨[], 1, none⟩]) cx) 1
        { queue := [cx0], consumer := none }).exec.queue.map EvalContext.block) = [0] ∧
    ((Executor.run (fun cx => StepOutcome.ok true (some [⟨[], 1, none⟩]) cx) 1
        { queue := [cx0], consumer := none }).exec.queue.map EvalContext.block) ≠ [1] := by
  exact ⟨rfl, by decide⟩

/-- C1 (corrected): on a fork, the scheduler pushes one structural copy per
outcome to the tail of the queue; within a copy, each constraint of the
outcome is pushed in order and, per constraint, the optional value is
materialized and control is set to the recorded target — so the target and
value apply exactly when the outcome has at least one constraint, and an
outcome with an empty constraint list is enqueued unchanged. -/
theorem c1_fork_outcomes (step : EvalContext → StepOutcome)
    (cons : Option (ExecutionComplete → Bool)) (fuel : Nat)
    (ecx cx : EvalContext) (rest : List EvalContext) (branches : List FinishStep)
    (hstep : step ecx = .ok true (some branches) cx)
    (hne : branches ≠ []) :
    Executor.run step (fuel + 1) { queue := ecx :: rest, consumer := cons } =
      Executor.run step fuel
        { queue := rest ++ branches.map (apply_finish_step cx), consumer := cons } ∧
    ∀ fs ∈ branches,
      (fs.constraints ≠ [] →
        (apply_finish_step cx fs).block = fs.goto_block ∧
        (∀ l p t, fs.set_lvalue = some (l, p, t) →
          (apply_finish_step cx fs).locals l = some (Value.ByVal p, t))) ∧
      (apply_finish_step cx fs).memory.constraints.constraints =
        cx.memory.constraints.constraints ++ fs.constraints ∧
      (fs.constraints = [] → apply_finish_step cx fs = cx) := by
  have hbe : branches.isEmpty = false := by
    cases branches with
    | nil => exact absurd rfl hne
    | cons b bs => rfl
  constructor
  · simp [Executor.run, hstep, hbe]
  · intro fs hfs
    refine ⟨fun hc => ⟨foldl_iter_block fs fs.constraints cx hc, ?_⟩,
      foldl_iter_constraints fs fs.constraints cx,
      apply_finish_step_empty cx fs⟩
    intro l p t hsl
    exact foldl_iter_locals_some fs fs.constraints cx l p t hsl hc

theorem c1_fork_outcomes_witness :
    (Executor.run (fun cx => StepOutcome.ok true (some [fs1]) cx) 1
        { queue := [cx0], consumer := none } =
      Executor.run (fun cx => StepOutcome.ok true (some [fs1]) cx) 0
        { queue := [] ++ [fs1].map (apply_finish_step cx0), consumer := none }) ∧
    ∀ fs ∈ [fs1],
      (fs.constraints ≠ [] →
        (apply_finish_step cx0 fs).block = fs.goto_block ∧
        (∀ l p t, fs.set_lvalue = some (l, p, t) →
          (apply_finish_step cx0 fs).locals l = some (Value.ByVal p, t))) ∧
      (apply_finish_step cx0 fs).memory.constraints.constraints =
        cx0.memory.constraints.constraints ++ fs.constraints ∧
      (fs.constraints = [] → apply_finish_step cx0 fs = cx0) :=
  c1_fork_outcomes (fun cx => StepOutcome.ok true (some [fs1]) cx) none 0 cx0 cx0 []
    [fs1] rfl (by simp)

/-- C2 counterexample: a fork that reports an empty outcome set ends the
scheduler loop through the `unimplemented!()` placeholder while the queue is
still non-empty and the consumer was never asked to stop. -/
theorem c2_panicked_exit_counterexample :
    (Executor.run (fun cx => StepOutcome.ok true (some []) cx) 5
      { queue := [cx0, cx0], consumer := some (fun _ => true) }).exit = RunExit.panicked ∧
    (Executor.run (fun cx => StepOutcome.ok true (some []) cx) 5
      { queue := [cx0, cx0], consumer := some (fun _ => true) }).exec.queue ≠ [] ∧
    (Executor.run (fun cx => StepOutcome.ok true (some []) cx) 5
      { queue := [cx0, cx0], consumer := some (fun _ => true) }).trace = [] := by
  refine ⟨rfl, ?_, rfl⟩
  intro h
  exact List.cons_ne_nil _ _ h

/-- C2 (corrected): a state whose step errors is converted into exactly one
Failure report carrying a satisfying input for the accumulated constraints;
scheduling then continues with the remaining states exactly when the
consumer returns true, and always when no consumer is installed — the error
itself never ends the loop (the remaining exits are queue exhaustion,
consumer stop, and the zero-outcome-fork placeholder abort). -/
theorem c2_error_reporting (step : EvalContext → StepOutcome)
    (f : ExecutionComplete → Bool) (fuel : Nat) (ecx cx : EvalContext)
    (rest : List EvalContext) (e : EvalError)
    (hstep : step ecx = .error e cx) :
    (Executor.run step (fuel + 1) { queue := ecx :: rest, consumer := some f } =
      (let comp : ExecutionComplete :=
        ⟨cx.memory.constraints.get_satisfying_values HACK_ABSTRACT_ALLOC_LEN, .failure e⟩
       if f comp then
         let r := Executor.run step fuel { queue := rest, consumer := some f }
         ⟨r.exec, comp :: r.trace, r.diags, r.exit⟩
       else
         ⟨{ queue := rest, consumer := some f }, [comp], [], .consumerStopped⟩)) ∧
    (Executor.run step (fuel + 1) { queue := ecx :: rest, consumer := none } =
      Executor.run step fuel { queue := rest, consumer := none }) := by
  constructor
  · simp [Executor.run, hstep]
  · simp [Executor.run, hstep]

theorem c2_error_reporting_witness :
    (Executor.run (fun cx => StepOutcome.error EvalError.ReadPointerAsBytes cx)
        (0 + 1) { queue := [cx0], consumer := some (fun _ => true) } =
      (let comp : ExecutionComplete :=
        ⟨cx0.memory.constraints.get_satisfying_values HACK_ABSTRACT_ALLOC_LEN,
         .failure EvalError.ReadPointerAsBytes⟩
       if (fun _ => true) comp then
         let r := Executor.run (fun cx => StepOutcome.error EvalError.ReadPointerAsBytes cx)
           0 { queue := [], consumer := some (fun _ => true) }
         ⟨r.exec, comp :: r.trace, r.diags, r.exit⟩
       else
         ⟨{ queue := [], consumer := some (fun _ => true) }, [comp], [], .consumerStopped⟩)) ∧
    (Executor.run (fun cx => StepOutcome.error EvalError.ReadPointerAsBytes cx)
        (0 + 1) { queue := [cx0], consumer := none } =
      Executor.run (fun cx => StepOutcome.error EvalError.ReadPointerAsBytes cx)
        0 { queue := [], consumer := none }) :=
  c2_error_reporting (fun cx => StepOutcome.error EvalError.ReadPointerAsBytes cx)
    (fun _ => true) 0 cx0 cx0 [] EvalError.ReadPointerAsBytes rfl

theorem get_satisfying_values_length (ctx : ConstraintContext) (n : Nat) :
    (ctx.get_satisfying_values n).length = n := by
  simp [ConstraintContext.get_satisfying_values]

theorem run_trace_input_length (step : EvalContext → StepOutcome) (fuel : Nat)
    (ex : Executor) :
    ∀ comp ∈ (Executor.run step fuel ex).trace,
      comp.input.length = HACK_ABSTRACT_ALLOC_LEN := by
  induction fuel generalizing ex with
  | zero =>
    intro comp hc
    simp [Executor.run] at hc
  | succ fuel ih =>
    intro comp hc
    simp only [Executor.run] at hc
    split at hc
    · simp at hc
    · split at hc
      · exact ih _ comp hc
      · split at hc
        · simp at hc
        · exact ih _ comp hc
      · rcases hcons : ex.consumer with _ | f
        · rw [hcons] at hc
          simp only [Option.toList, List.nil_append, if_true] at hc
          exact ih _ comp hc
        · rw [hcons] at hc
          simp only [Option.toList] at hc
          split at hc
          · simp only [List.singleton_append, List.mem_cons] at hc
            rcases hc with h | h
            · subst h; simp [ConstraintContext.get_satisfying_values]
            · exact ih _ comp h
          · simp only [List.mem_singleton] at hc
            subst hc
            simp [ConstraintContext.get_satisfying_values]
      · rcases hcons : ex.consumer with _ | f
        · rw [hcons] at hc
          simp only [Option.toList, List.nil_append, if_true] at hc
          exact ih _ comp hc
        · rw [hcons] at hc
          simp only [Option.toList] at hc
          split at hc
          · simp only [List.singleton_append, List.mem_cons] at hc
            rcases hc with h | h
            · subst h; simp [ConstraintContext.get_satisfying_values]
            · exact ih _ comp h
          · simp only [List.mem_singleton] at hc
            subst hc
            simp [ConstraintContext.get_satisfying_values]

/-- C3 counterexample: constructing in target-function mode with a
configured symbolic input byte length of 5 still allocates a 21-byte root
buffer — the hard-coded `HACK_ABSTRACT_ALLOC_LEN`, not the configured
length. -/
theorem c3_configured_length_counterexample :
    ((new_symbolic ⟨1000, 1000, 1000, 5⟩ none).queue.map
      (fun cx => cx.memory.allocs)) = [[(0, 21)]] ∧
    (⟨1000, 1000, 1000, 5⟩ : ResourceLimits).symbolic_input_length ≠ 21 := by
  exact ⟨rfl, by decide⟩

/-- C3 (corrected): in target-function mode the scheduler allocates a fully
symbolic root buffer of exactly `HACK_ABSTRACT_ALLOC_LEN` (21) bytes —
independent of the construction-time configuration — binds it with that
length to the function's sole parameter, and every completion reported to
the consumer in any run carries a concrete input of exactly that same
length. -/
theorem c3_input_length (limits : ResourceLimits)
    (cons : Option (ExecutionComplete → Bool)) :
    ((new_symbolic limits cons).queue.map (fun cx => cx.memory.allocs)) =
      [[(0, HACK_ABSTRACT_ALLOC_LEN)]] ∧
    ((new_symbolic limits cons).queue.map (fun cx => cx.memory.root_abstract_alloc)) =
      [some 0] ∧
    ((new_symbolic limits cons).queue.map (fun cx => cx.locals 1)) =
      [some (Value.ByValPair (.Ptr ⟨0, 0⟩) (.Bytes HACK_ABSTRACT_ALLOC_LEN), .TyRef)] ∧
    ∀ step fuel comp,
      comp ∈ (Executor.run step fuel (new_symbolic limits cons)).trace →
      comp.input.length = HACK_ABSTRACT_ALLOC_LEN := by
  refine ⟨rfl, rfl, rfl, ?_⟩
  intro step fuel comp hc
  exact run_trace_input_length step fuel _ comp hc

theorem c3_input_length_witness :
    (((new_symbolic ⟨1, 1, 1, 7⟩ (some (fun _ => true))).queue.map
      (fun cx => cx.memory.allocs)) = [[(0, HACK_ABSTRACT_ALLOC_LEN)]]) ∧
    ((⟨List.replicate 21 0, .success⟩ : ExecutionComplete).input.length =
      HACK_ABSTRACT_ALLOC_LEN) :=
  ⟨(c3_input_length ⟨1, 1, 1, 7⟩ (some (fun _ => true))).1,
   (c3_input_length ⟨1, 1, 1, 7⟩ (some (fun _ => true))).2.2.2
     (fun cx => StepOutcome.ok false none cx) 2 ⟨List.replicate 21 0, .success⟩
     (by decide)⟩

/-- C4 counterexample: a path that completes through a step error leaves the
root symbolic allocation unreleased and performs no leak check before the
consumer's false return ends the loop — the state still holds a leaked
non-root allocation, yet no leak diagnostic is emitted. -/
theorem c4_error_path_no_dealloc_counterexample :
    (Executor.run (fun cx => StepOutcome.error EvalError.ReadPointerAsBytes cx) 3
      { queue := [cx_leaky], consumer := some (fun _ => false) }).exit =
        RunExit.consumerStopped ∧
    (Executor.run (fun cx => StepOutcome.error EvalError.ReadPointerAsBytes cx) 3
      { queue := [cx_leaky], consumer := some (fun _ => false) }).diags = [] ∧
    (cx_leaky.memory.deallocate 0).leak_report ≠ 0 ∧
    cx_leaky.memory.root_abstract_alloc = some 0 := by
  exact ⟨rfl, rfl, by decide, rfl⟩

/-- C4 (corrected): on successfully completed paths the root symbolic
allocation is released and the leak check runs before the consumer's
returned boolean is honored — the leak diagnostic of the deallocated state
is emitted even when the consumer stops the loop; on failure (step error)
paths no release and no leak check happen before the boolean is honored. -/
theorem c4_dealloc_before_stop (step : EvalContext → StepOutcome)
    (f : ExecutionComplete → Bool) (fuel : Nat) (ecx cx : EvalContext)
    (rest : List EvalContext) (br : Option (List FinishStep)) (e : EvalError) :
    (step ecx = .ok false br cx →
      f ⟨cx.memory.constraints.get_satisfying_values HACK_ABSTRACT_ALLOC_LEN, .success⟩ =
        false →
      Executor.run step (fuel + 1) { queue := ecx :: rest, consumer := some f } =
        ⟨{ queue := rest, consumer := some f },
         [⟨cx.memory.constraints.get_satisfying_values HACK_ABSTRACT_ALLOC_LEN, .success⟩],
         (if (match cx.memory.root_abstract_alloc with
              | some p => { cx with memory := cx.memory.deallocate p }
              | none => cx).memory.leak_report ≠ 0 then [leak_message] else []),
         .consumerStopped⟩) ∧
    (step ecx = .error e cx →
      f ⟨cx.memory.constraints.get_satisfying_values HACK_ABSTRACT_ALLOC_LEN, .failure e⟩ =
        false →
      Executor.run step (fuel + 1) { queue := ecx :: rest, consumer := some f } =
        ⟨{ queue := rest, consumer := some f },
         [⟨cx.memory.constraints.get_satisfying_values HACK_ABSTRACT_ALLOC_LEN, .failure e⟩],
         [], .consumerStopped⟩) := by
  constructor
  · intro hstep hf
    simp [Executor.run, hstep, hf]
  · intro hstep hf
    simp [Executor.run, hstep, hf]

theorem c4_dealloc_before_stop_witness :
    Executor.run (fun cx => StepOutcome.ok false none cx) (0 + 1)
        { queue := [cx_leaky], consumer := some (fun _ => false) } =
      ⟨{ queue := [], consumer := some (fun _ => false) },
       [⟨cx_leaky.memory.constraints.get_satisfying_values HACK_ABSTRACT_ALLOC_LEN,
         .success⟩],
       (if (match cx_leaky.memory.root_abstract_alloc with
            | some p => { cx_leaky with memory := cx_leaky.memory.deallocate p }
            | none => cx_leaky).memory.leak_report ≠ 0 then [leak_message] else []),
       .consumerStopped⟩ :=
  (c4_dealloc_before_stop (fun cx => StepOutcome.ok false none cx) (fun _ => false) 0
    cx_leaky cx_leaky [] none EvalError.PanicBug).1 rfl rfl

end Seer
